import Mathlib

/-!
Shallow embedding of `src/example.py` (CodexConnector utility module).

The module consists of three functions:

  * `calculate_average` — sums a sequence left-to-right starting from `0`
    and divides by its length (Python raises `ZeroDivisionError` when the
    length is `0`, so the embedding returns `Except`).
  * `find_user` — linear scan over a list of dicts, returning the first
    dict whose `'id'` entry equals the target, `None` when no dict matches,
    and raising `KeyError` when a scanned dict lacks the `'id'` key.
  * `process_data` — accumulator loop that keeps exactly the non-`None`
    items, appending `item.strip()` for each.

Python strings are modelled as `List Char`; Python dicts as association
lists; `None`-or-string items as `Option`; raised exceptions as
`Except.error`.
-/

/-- The runtime errors the module can raise: `ZeroDivisionError` from
`total / len(numbers)` and `KeyError` from `user['id']`. -/
inductive PyError where
  | zeroDivision : PyError
  | keyError (k : List Char) : PyError
deriving DecidableEq

instance {ε α : Type} [DecidableEq ε] [DecidableEq α] : DecidableEq (Except ε α) :=
  fun x y =>
    match x, y with
    | Except.error e, Except.error f =>
      if h : e = f then isTrue (congrArg Except.error h)
      else isFalse (fun hc => h (Except.error.inj hc))
    | Except.error _, Except.ok _ => isFalse (fun hc => Except.noConfusion hc)
    | Except.ok _, Except.error _ => isFalse (fun hc => Except.noConfusion hc)
    | Except.ok a, Except.ok b =>
      if h : a = b then isTrue (congrArg Except.ok h)
      else isFalse (fun hc => h (Except.ok.inj hc))

/-- Embedding of `calculate_average` (`src/example.py` lines 3-8):
`total = 0; for n in numbers: total = total + n; avg = total / len(numbers)`.
The numeric type is kept abstract (any carrier with `+`, `/`, `0` and a cast
from `Nat` for `len`), so the statement holds for every numeric semantics,
floating point included.  Python's true division raises
`ZeroDivisionError` exactly when the denominator `len(numbers)` is `0`. -/
def calculate_average {α : Type} [Add α] [OfNat α 0] [Div α] [NatCast α]
    (numbers : List α) : Except PyError α :=
  let total := numbers.foldl (fun t n => t + n) (0 : α)
  if numbers.length = 0 then
    Except.error PyError.zeroDivision
  else
    Except.ok (total / (numbers.length : α))

/-- Python strings, modelled as lists of characters. -/
abbrev PyStr := List Char

/-- A Python dict with string keys, modelled as an association list;
lookup scans for the first binding of the key. -/
abbrev PyDict (V : Type) := List (PyStr × V)

/-- The key `'id'` used by `find_user`. -/
def idKey : PyStr := ['i', 'd']

/-- Dict indexing `d[k]` without the raise: the value of the first binding
of `k`, or `none` when the key is missing. -/
def dictLookup {V : Type} (d : PyDict V) (k : PyStr) : Option V :=
  match d with
  | [] => none
  | (k', v) :: rest => if k' = k then some v else dictLookup rest k

/-- Embedding of `find_user` (`src/example.py` lines 10-14):
`for user in users: if user['id'] == id: return user` then `return None`.
`user['id']` raises `KeyError` when the dict has no `'id'` key, so the
result is `Except`; a normal return carries `Option (PyDict V)` (`None`
for "not found"). -/
def find_user {V : Type} [DecidableEq V] (users : List (PyDict V)) (id : V) :
    Except PyError (Option (PyDict V)) :=
  match users with
  | [] => Except.ok none
  | user :: rest =>
    match dictLookup user idKey with
    | none => Except.error (PyError.keyError idKey)
    | some v => if v = id then Except.ok (some user) else find_user rest id

/-- Python's whitespace test used by `str.strip()`, restricted to the
characters that occur in Latin-1 text (`' '`, `'\t'`, `'\n'`, `'\r'`,
`'\x0b'`, `'\x0c'`, the file separators `'\x1c'`-`'\x1f'`, `'\x85'`,
`'\xa0'`). -/
def pyIsSpace (c : Char) : Bool :=
  c = ' ' || c = '\t' || c = '\n' || c = '\r' || c = '\x0b' || c = '\x0c' ||
  c = '\x1c' || c = '\x1d' || c = '\x1e' || c = '\x1f' || c = '\x85' || c = '\xa0'

/-- Embedding of Python `s.strip()`: drop whitespace from the front, then
drop whitespace from the (reversed) back. -/
def pyStrip (s : PyStr) : PyStr :=
  ((s.dropWhile pyIsSpace).reverse.dropWhile pyIsSpace).reverse

/-- Embedding of `process_data` (`src/example.py` lines 16-21):
`result = []; for item in data: if item != None: result.append(item.strip())`.
The guard `item != None` is the match on the `Option`; present items are
stripped and appended to the accumulator. -/
def process_data (data : List (Option PyStr)) : List PyStr :=
  data.foldl
    (fun result item =>
      match item with
      | none => result
      | some s => result ++ [pyStrip s])
    []

/-- Modelled from the spec: the foil the design notes rule out — a loop
whose guard is a generic Python truthiness test (`if item:`), which skips
falsy-but-present items (in particular the empty string) as well as the
absent marker.  `process_data` is compared against this to show the code
keeps empty strings. -/
def process_data_truthy (data : List (Option PyStr)) : List PyStr :=
  data.foldl
    (fun result item =>
      match item with
      | none => result
      | some s => if s.isEmpty then result else result ++ [pyStrip s])
    []

/-- Worked example from the spec: `average([2, 4, 6])` is `4.0`. -/
theorem spec_example_average : calculate_average ([2, 4, 6] : List ℚ) = Except.ok 4 := by
  norm_num [calculate_average, List.foldl]

/-- Claim C1: for every non-empty sequence of numbers, `calculate_average`
returns the left-to-right accumulated sum (starting from `0`, in sequence
order) divided by the length.  The carrier stays abstract, so the equation
holds under any numeric semantics for `+` and `/`, floating point included. -/
theorem calculate_average_correct {α : Type} [Add α] [OfNat α 0] [Div α] [NatCast α]
    (numbers : List α) (h : numbers ≠ []) :
    calculate_average numbers =
      Except.ok ((numbers.foldl (fun t n => t + n) (0 : α)) / (numbers.length : α)) := by
  have hl : ¬ numbers.length = 0 := by
    intro h0
    exact h (List.length_eq_zero.mp h0)
  simp [calculate_average, hl]

theorem calculate_average_correct_witness :
    ([2, 4, 6] : List ℚ) ≠ [] ∧
      calculate_average ([2, 4, 6] : List ℚ) =
        Except.ok ((([2, 4, 6] : List ℚ).foldl (fun t n => t + n) (0 : ℚ)) /
          ((([2, 4, 6] : List ℚ).length : ℚ))) :=
  ⟨by decide, calculate_average_correct ([2, 4, 6] : List ℚ) (by decide)⟩

/-- Claim C4: on the empty sequence `calculate_average` stops with the
division error (Python's `ZeroDivisionError` from `total / len(numbers)`);
nothing catches it inside the function, so the `Except.error` is the
function's result, handed to the caller. -/
theorem calculate_average_empty {α : Type} [Add α] [OfNat α 0] [Div α] [NatCast α] :
    calculate_average ([] : List α) = Except.error PyError.zeroDivision := rfl

/-- Claim C6: the three functions are deterministic, pure functions of
their inputs: equal inputs give equal results.  (The embedding is pure
because the source's only writes are to the loop-local accumulators
`total` and `result`, which the fold state represents; the input lists
are never written.) -/
theorem codex_functions_deterministic :
    (∀ (ns ms : List ℚ), ns = ms → calculate_average ns = calculate_average ms) ∧
    (∀ (us vs : List (PyDict ℤ)) (k l : ℤ),
        us = vs → k = l → find_user us k = find_user vs l) ∧
    (∀ (ds es : List (Option PyStr)), ds = es → process_data ds = process_data es) :=
  ⟨fun _ _ h => by rw [h],
   fun _ _ _ _ h1 h2 => by rw [h1, h2],
   fun _ _ h => by rw [h]⟩

theorem codex_functions_deterministic_witness :
    calculate_average ([1] : List ℚ) = calculate_average ([1] : List ℚ) ∧
      find_user ([] : List (PyDict ℤ)) 0 = find_user ([] : List (PyDict ℤ)) 0 ∧
      process_data [] = process_data [] :=
  ⟨codex_functions_deterministic.1 [1] [1] rfl,
   codex_functions_deterministic.2.1 [] [] 0 0 rfl rfl,
   codex_functions_deterministic.2.2 [] [] rfl⟩

/-- Claim C2: on a collection whose records all carry the `'id'` key,
`find_user` returns exactly the first record (in iteration order) whose
`'id'` equals the target — `List.find?` — and `none` when no record
matches, in particular on the empty collection. -/
theorem find_user_correct {V : Type} [DecidableEq V] (users : List (PyDict V)) (k : V)
    (hwf : ∀ u ∈ users, (dictLookup u idKey).isSome) :
    find_user users k =
      Except.ok (users.find? (fun u => decide (dictLookup u idKey = some k))) := by
  induction users with
  | nil => rfl
  | cons u rest ih =>
    obtain ⟨v, hv⟩ := Option.isSome_iff_exists.mp (hwf u (List.mem_cons_self u rest))
    by_cases hvk : v = k
    · subst hvk
      simp [find_user, hv, List.find?_cons_of_pos]
    · have hne : ¬ dictLookup u idKey = some k := by
        rw [hv]
        exact fun hc => hvk (Option.some.inj hc)
      rw [List.find?_cons_of_neg _ (by simpa using hne)]
      simp [find_user, hv, hvk]
      exact ih (fun w hw => hwf w (List.mem_cons_of_mem u hw))

theorem find_user_correct_witness :
    (∀ u ∈ ([[(idKey, (1 : ℤ))], [(idKey, 2)]] : List (PyDict ℤ)),
        (dictLookup u idKey).isSome) ∧
      find_user ([[(idKey, (1 : ℤ))], [(idKey, 2)]] : List (PyDict ℤ)) 2 =
        Except.ok (List.find? (fun u => decide (dictLookup u idKey = some 2))
          ([[(idKey, (1 : ℤ))], [(idKey, 2)]] : List (PyDict ℤ))) :=
  ⟨by decide, find_user_correct ([[(idKey, (1 : ℤ))], [(idKey, 2)]] : List (PyDict ℤ)) 2
    (by decide)⟩

/-- Claim C7: whenever `find_user` finds a match, the record it returns is
an element of the input collection itself — the code returns the scanned
`user` unchanged, so the result is one of the collection's records, not a
rebuilt one.  (Pointer identity has no finer observable counterpart in a
pure embedding than membership in the input list.) -/
theorem find_user_mem {V : Type} [DecidableEq V] (users : List (PyDict V)) (k : V)
    (u : PyDict V) (h : find_user users k = Except.ok (some u)) : u ∈ users := by
  induction users with
  | nil => simp [find_user] at h
  | cons w rest ih =>
    cases hw : dictLookup w idKey with
    | none => simp [find_user, hw] at h
    | some v =>
      by_cases hvk : v = k
      · simp [find_user, hw, hvk] at h
        rw [← h]
        exact List.mem_cons_self w rest
      · simp [find_user, hw, hvk] at h
        exact List.mem_cons_of_mem w (ih h)

theorem find_user_mem_witness :
    find_user ([[(idKey, (5 : ℤ))]] : List (PyDict ℤ)) 5 =
        Except.ok (some [(idKey, (5 : ℤ))]) ∧
      [(idKey, (5 : ℤ))] ∈ ([[(idKey, (5 : ℤ))]] : List (PyDict ℤ)) :=
  ⟨by decide, find_user_mem ([[(idKey, (5 : ℤ))]] : List (PyDict ℤ)) 5
    [(idKey, (5 : ℤ))] (by decide)⟩

/-- Claim C8: the scan stops at the first match.  If every record before
the match carries an `'id'` key whose value differs from the target and
the record `u` matches, the result is `u` whatever comes after it — the
records beyond the match may have any shape, including no `'id'` key. -/
theorem find_user_first_match {V : Type} [DecidableEq V] (pre : List (PyDict V))
    (u : PyDict V) (post : List (PyDict V)) (k : V)
    (hpre : ∀ w ∈ pre, (dictLookup w idKey).isSome ∧ dictLookup w idKey ≠ some k)
    (hu : dictLookup u idKey = some k) :
    find_user (pre ++ u :: post) k = Except.ok (some u) := by
  induction pre with
  | nil => simp [find_user, hu]
  | cons w pre' ih =>
    obtain ⟨hsome, hne⟩ := hpre w (List.mem_cons_self w pre')
    obtain ⟨v, hv⟩ := Option.isSome_iff_exists.mp hsome
    have hvk : v ≠ k := fun hc => hne (by rw [hv, hc])
    simp only [List.cons_append]
    simp [find_user, hv, hvk]
    exact ih (fun w' hw' => hpre w' (List.mem_cons_of_mem w hw'))

theorem find_user_first_match_witness :
    (∀ w ∈ ([[(idKey, (1 : ℤ))]] : List (PyDict ℤ)),
        (dictLookup w idKey).isSome ∧ dictLookup w idKey ≠ some 2) ∧
      dictLookup ([(idKey, (2 : ℤ))] : PyDict ℤ) idKey = some 2 ∧
      find_user (([[(idKey, (1 : ℤ))]] : List (PyDict ℤ)) ++
          [(idKey, (2 : ℤ))] :: [([] : PyDict ℤ)]) 2 =
        Except.ok (some [(idKey, (2 : ℤ))]) :=
  ⟨by decide, by decide,
   find_user_first_match [[(idKey, (1 : ℤ))]] [(idKey, (2 : ℤ))] [([] : PyDict ℤ)] 2
     (by decide) (by decide)⟩

/-- Claim C9: if the scan reaches a record with no `'id'` key before any
match (every earlier record has an `'id'` differing from the target), the
call stops with `KeyError` — it does not return the absent-signal, even
when a matching record exists later in the collection. -/
theorem find_user_key_error {V : Type} [DecidableEq V] (pre : List (PyDict V))
    (bad : PyDict V) (post : List (PyDict V)) (k : V)
    (hpre : ∀ w ∈ pre, (dictLookup w idKey).isSome ∧ dictLookup w idKey ≠ some k)
    (hbad : dictLookup bad idKey = none) :
    find_user (pre ++ bad :: post) k = Except.error (PyError.keyError idKey) := by
  induction pre with
  | nil => simp [find_user, hbad]
  | cons w pre' ih =>
    obtain ⟨hsome, hne⟩ := hpre w (List.mem_cons_self w pre')
    obtain ⟨v, hv⟩ := Option.isSome_iff_exists.mp hsome
    have hvk : v ≠ k := fun hc => hne (by rw [hv, hc])
    simp only [List.cons_append]
    simp [find_user, hv, hvk]
    exact ih (fun w' hw' => hpre w' (List.mem_cons_of_mem w hw'))

theorem process_data_foldl_eq (data : List (Option PyStr)) (acc : List PyStr) :
    data.foldl
      (fun result item =>
        match item with
        | none => result
        | some s => result ++ [pyStrip s])
      acc = acc ++ data.filterMap (fun i => Option.map pyStrip i) := by
  induction data generalizing acc with
  | nil => simp
  | cons i rest ih =>
    cases i with
    | none => simp [List.foldl_cons, ih]
    | some s => simp [List.foldl_cons, ih]

theorem process_data_eq_filterMap (data : List (Option PyStr)) :
    process_data data = data.filterMap (fun i => Option.map pyStrip i) := by
  simpa [process_data] using process_data_foldl_eq data []

theorem process_data_length (data : List (Option PyStr)) :
    (process_data data).length = (data.filter (fun i => i.isSome)).length := by
  rw [process_data_eq_filterMap data]
  induction data with
  | nil => rfl
  | cons i rest ih =>
    cases i with
    | none => simpa using ih
    | some s => simpa using ih

theorem head_dropWhile_not {α : Type} (p : α → Bool) (l : List α) (c : α)
    (h : (l.dropWhile p).head? = some c) : p c = false := by
  induction l with
  | nil => simp [List.dropWhile] at h
  | cons a t ih =>
    rw [List.dropWhile_cons] at h
    split at h
    · exact ih h
    · next hpa =>
      have hac : a = c := by simpa using h
      subst hac
      cases hpb : p a with
      | false => rfl
      | true => exact absurd hpb hpa

theorem dropWhile_eq_self_of_head {α : Type} (p : α → Bool) (l : List α)
    (h : ∀ c, l.head? = some c → p c = false) : l.dropWhile p = l := by
  cases l with
  | nil => rfl
  | cons a t =>
    have ha : p a = false := h a rfl
    rw [List.dropWhile_cons]
    simp [ha]

theorem dropWhile_tail_decomp {α : Type} (p : α → Bool) (l : List α) :
    ∃ t, l = t ++ l.dropWhile p := by
  induction l with
  | nil => exact ⟨[], rfl⟩
  | cons a t ih =>
    rw [List.dropWhile_cons]
    split
    · obtain ⟨u, hu⟩ := ih
      exact ⟨a :: u, by rw [List.cons_append, ← hu]⟩
    · exact ⟨[], rfl⟩

theorem pyStrip_head {s : PyStr} {c : Char} (h : (pyStrip s).head? = some c) :
    pyIsSpace c = false := by
  obtain ⟨t, ht⟩ := dropWhile_tail_decomp pyIsSpace (s.dropWhile pyIsSpace).reverse
  have hm : s.dropWhile pyIsSpace = pyStrip s ++ t.reverse := by
    have := congrArg List.reverse ht
    simpa [pyStrip, List.reverse_append] using this
  apply head_dropWhile_not pyIsSpace s c
  cases hps : pyStrip s with
  | nil => rw [hps] at h; cases h
  | cons a rest =>
    rw [hps] at h
    have hac : a = c := by simpa using h
    rw [hm, hps, List.cons_append]
    simpa using hac

theorem pyStrip_rev_head {s : PyStr} {c : Char}
    (h : (pyStrip s).reverse.head? = some c) : pyIsSpace c = false := by
  have hrev : (pyStrip s).reverse = (s.dropWhile pyIsSpace).reverse.dropWhile pyIsSpace := by
    simp [pyStrip]
  rw [hrev] at h
  exact head_dropWhile_not pyIsSpace (s.dropWhile pyIsSpace).reverse c h

theorem pyStrip_eq_self {l : PyStr}
    (hfront : ∀ c, l.head? = some c → pyIsSpace c = false)
    (hback : ∀ c, l.reverse.head? = some c → pyIsSpace c = false) :
    pyStrip l = l := by
  unfold pyStrip
  rw [dropWhile_eq_self_of_head pyIsSpace l hfront]
  rw [dropWhile_eq_self_of_head pyIsSpace l.reverse hback]
  exact List.reverse_reverse l

theorem pyStrip_idem (s : PyStr) : pyStrip (pyStrip s) = pyStrip s :=
  pyStrip_eq_self (fun _ h => pyStrip_head h) (fun _ h => pyStrip_rev_head h)

/-- Claim C3: `process_data` returns exactly the non-absent items, each
with surrounding whitespace stripped, in their original relative order
(the `filterMap` equation); its length is the number of non-absent items;
and on the empty sequence it returns the empty sequence. -/
theorem process_data_correct (data : List (Option PyStr)) :
    process_data data = data.filterMap (fun i => Option.map pyStrip i) ∧
      (process_data data).length = (data.filter (fun i => i.isSome)).length ∧
      process_data ([] : List (Option PyStr)) = [] :=
  ⟨process_data_eq_filterMap data, process_data_length data, rfl⟩

/-- Claim C5: the guard `item != None` tests only against the absent
marker, never truthiness, so falsy-but-present items survive: every
present item is kept (the kept count equals the present count), the empty
string in particular is retained (trimmed, still empty), whereas the
truthiness-guarded variant the spec's design notes rule out would drop it. -/
theorem process_data_skips_only_absent :
    (∀ data : List (Option PyStr),
        (process_data data).length = (data.filter (fun i => i.isSome)).length) ∧
      process_data [some ([] : PyStr)] = [([] : PyStr)] ∧
      process_data_truthy [some ([] : PyStr)] = [] :=
  ⟨process_data_length, by decide, by decide⟩

/-- Claim C10: `process_data` is idempotent on its own output: re-feeding
the cleaned sequence (whose items are all present strings, hence the
`map some` embedding) returns it unchanged, because the output has no
absent items and each element is already stripped. -/
theorem process_data_idempotent (data : List (Option PyStr)) :
    process_data ((process_data data).map some) = process_data data := by
  rw [process_data_eq_filterMap ((process_data data).map some), List.filterMap_map]
  rw [show ((fun i => Option.map pyStrip i) ∘ some) = (some ∘ pyStrip) from rfl]
  rw [List.filterMap_eq_map]
  have hfix : ∀ x ∈ process_data data, pyStrip x = x := by
    intro x hx
    rw [process_data_eq_filterMap data] at hx
    obtain ⟨i, _, hfx⟩ := List.mem_filterMap.mp hx
    cases i with
    | none => simp at hfx
    | some s =>
      have hsx : pyStrip s = x := by simpa using hfx
      rw [← hsx, pyStrip_idem]
  calc (process_data data).map pyStrip
      = (process_data data).map id := List.map_congr_left hfix
    _ = process_data data := List.map_id _

theorem find_user_key_error_witness :
    (∀ w ∈ ([[(idKey, (1 : ℤ))]] : List (PyDict ℤ)),
        (dictLookup w idKey).isSome ∧ dictLookup w idKey ≠ some 2) ∧
      dictLookup ([] : PyDict ℤ) idKey = none ∧
      find_user (([[(idKey, (1 : ℤ))]] : List (PyDict ℤ)) ++
          ([] : PyDict ℤ) :: [[(idKey, (2 : ℤ))]]) 2 =
        Except.error (PyError.keyError idKey) :=
  ⟨by decide, by decide,
   find_user_key_error [[(idKey, (1 : ℤ))]] ([] : PyDict ℤ) [[(idKey, (2 : ℤ))]] 2
     (by decide) (by decide)⟩
/-- Worked example from the spec: `find_record` on two records returns the
second one when its id matches. -/
theorem spec_example_find : find_user ([[(idKey, (1 : ℤ))], [(idKey, 2)]]) 2 =
    Except.ok (some [(idKey, 2)]) := by decide

/-- Worked example from the spec:
`clean([" a ", absent, "b", "  "])` is `["a", "b", ""]`. -/
theorem spec_example_clean :
    process_data [some [' ', 'a', ' '], none, some ['b'], some [' ', ' ']] =
      [['a'], ['b'], []] := by decide
